import Mathlib

/-!
# Verification of the temu terminal emulator core

Shallow embedding of the scroll viewport, surface management, GPU instance
buffers, PTY reader loop, terminal grid, and the cell/text instance
assembly of the renderer, together with proofs of the specified
properties.
-/

namespace Temu

/-! ## Scroll state (src/src/render/cell.rs, CellContext) -/

/-- `CellContext::scroll`: `self.scroll_offset = (self.scroll_offset + offset).max(min).min(max)`
with `min = 0` and `max = screen.visible_row_to_stable_row(0)`.
`StableRowIndex` is a signed integer. -/
def scroll (scroll_offset offset mx : Int) : Int :=
  min (max (scroll_offset + offset) 0) mx

/-- `CellContext::scroll_to_bottom`: `self.scroll_offset = term.screen().visible_row_to_stable_row(0)`. -/
def scroll_to_bottom (mx : Int) : Int := mx

/-- `n` repeated ScrollUp events: each calls `scroll` with `offset = -1`. -/
def scrollUpN (n : Nat) (scroll_offset mx : Int) : Int :=
  match n with
  | 0 => scroll_offset
  | n + 1 => scrollUpN n (scroll scroll_offset (-1) mx) mx

/-- `n` repeated ScrollDown events: each calls `scroll` with `offset = 1`. -/
def scrollDownN (n : Nat) (scroll_offset mx : Int) : Int :=
  match n with
  | 0 => scroll_offset
  | n + 1 => scrollDownN n (scroll scroll_offset 1 mx) mx

/-! ## Viewport (src/src/render/viewport.rs) -/

/-- `Viewport::resize`: `config.width = width.max(300); config.height = height.max(200);`
then `surface.configure(device, &config)`.  Returns the `(width, height)`
used by the surface reconfiguration. -/
def Viewport.resize (width height : Nat) : Nat × Nat :=
  (max width 300, max height 200)

/-- The render loop's Resize handler (src/src/render.rs, `run`):
`if prev_resize != (width, height) { ctx.resize(width, height); ... }`.
Returns `some cfg` when a surface reconfiguration with size `cfg` happens,
`none` when the event is ignored. -/
def runResize (prev_resize : Nat × Nat) (width height : Nat) : Option (Nat × Nat) :=
  if prev_resize ≠ (width, height) then some (Viewport.resize width height) else none

/-- Surface acquisition errors of the graphics API (wgpu `SurfaceError`). -/
inductive SurfaceError
  | timeout
  | outdated
  | lost
  | outOfMemory
  deriving DecidableEq, Repr

/-- Result of `surface.get_current_texture()`: a texture (abstracted as a tag) or an error. -/
inductive SurfaceResult
  | ok (texture : Nat)
  | err (e : SurfaceError)
  deriving DecidableEq, Repr

/-- Outcome of `Viewport::get_current_texture` (src/src/render/viewport.rs:81-87):
`self.desc.surface.get_current_texture().expect("Failed to acquire next swap chain texture")`.
`Except.error` models the panic raised by `expect`; the payload is the panic message. -/
def Viewport.get_current_texture (r : SurfaceResult) : Except String Nat :=
  match r with
  | .ok t => .ok t
  | .err _ => .error "Failed to acquire next swap chain texture"

/-! ## GPU instance buffers -/

/-- `WgpuVec::write` capacity growth (src/wgpu-container/src/wgpu_vec.rs:75-89):
`while self.inner_cap < self.cpu_buffer.len() { self.inner_cap *= 2; }`.
The `0 < cap` guard reflects the constructor invariant
(`with_capacity` forces `capacity.max(1)`), under which the Rust loop
terminates. -/
def containerGrow (cap len : Nat) : Nat :=
  if h : 0 < cap ∧ cap < len then containerGrow (cap * 2) len else cap
termination_by len - cap
decreasing_by omega

/-- `WgpuVec::write` of the legacy copy (src/src/render/wgpu_vec.rs:45-56):
`if self.inner_cap < self.vec.len() { self.inner_cap *= 2; ... }` —
the capacity is doubled once, not in a loop. -/
def renderGrow (cap len : Nat) : Nat :=
  if cap < len then cap * 2 else cap

/-- Tracked GPU capacity after a session: fold of `write` calls with the
given CPU-vector lengths (wgpu-container variant). -/
def containerSession (cap : Nat) (lens : List Nat) : Nat :=
  lens.foldl containerGrow cap

/-! ## PTY reader loop (src/src/term.rs, `run`, lines 64-85) -/

/-- The error kinds a read can fail with (std::io::ErrorKind, abridged). -/
inductive ErrorKind
  | interrupted
  | wouldBlock
  | unexpectedEof
  | brokenPipe
  | otherKind
  deriving DecidableEq, Repr

/-- Result of `master_file.read(&mut buffer)`. -/
inductive ReadResult
  | ok (len : Nat)
  | err (kind : ErrorKind)
  deriving DecidableEq, Repr

/-- What one iteration of the Reader loop does with a read result. -/
inductive LoopStep
  /-- process the bytes and loop again -/
  | processAndContinue (len : Nat)
  /-- retry the read (the `continue` arm) -/
  | retry
  /-- `break` out of the loop; the worker returns normally -/
  | terminateCleanly
  deriving DecidableEq, Repr

/-- The Reader loop body (src/src/term.rs:68-84):
`Ok(0) => break`, `Ok(len) => { ...; }`,
`Err(e) if e.kind() == Interrupted => continue`,
`Err(e) => { eprintln!(...); break }`. No arm panics. -/
def readerStep (r : ReadResult) : LoopStep :=
  match r with
  | .ok 0 => .terminateCleanly
  | .ok (len + 1) => .processAndContinue (len + 1)
  | .err .interrupted => .retry
  | .err _ => .terminateCleanly

/-! ## Terminal grid (src/src/term/grid.rs) -/

/-- A grid cell: carries a character. -/
structure Cell where
  ch : Char
  deriving DecidableEq, Repr

/-- `Cell::new`. -/
def Cell.new (ch : Char) : Cell := ⟨ch⟩

/-- A line of the grid. -/
structure Line where
  raw : List Cell
  deriving DecidableEq, Repr

/-- `Line::new(col)`: `vec![Cell::new(' '); col]`. -/
def Line.new (col : Nat) : Line := ⟨List.replicate col (Cell.new ' ')⟩

/-- `grid[i] = f(grid[i])`, a no-op when `i` is out of bounds (the Rust
code indexes directly and would panic; the safety claim shows the index
is always in bounds). -/
def modifyAt {α : Type} : List α → Nat → (α → α) → List α
  | [], _, _ => []
  | a :: l, 0, f => f a :: l
  | a :: l, i + 1, f => a :: modifyAt l i f

/-- Apply `f` to a value `n` times in sequence (`for _ in 0..n { ... }`). -/
def iterateN {α : Type} (f : α → α) : Nat → α → α
  | 0, a => a
  | n + 1, a => iterateN f n (f a)

/-- The terminal screen model of src/src/term/grid.rs.  `cursor.1` is the
column (`cursor.0` in Rust), `cursor.2` the row (`cursor.1` in Rust). -/
structure Terminal where
  grid : List Line
  cursor : Nat × Nat
  column : Nat
  deriving DecidableEq, Repr

namespace Terminal

/-- `Terminal::new(column)`. -/
def new (column : Nat) : Terminal :=
  { grid := [Line.new column], cursor := (0, 0), column := column }

/-- `Terminal::new_row`: push a fresh line. -/
def new_row (t : Terminal) : Terminal :=
  { t with grid := t.grid ++ [Line.new t.column] }

/-- `Terminal::bs`: `cursor.0 = cursor.0.saturating_sub(1)`. -/
def bs (t : Terminal) : Terminal :=
  { t with cursor := (t.cursor.1 - 1, t.cursor.2) }

/-- `Terminal::lf`: move to the next row, appending one
(`Terminal::new_row`) when the cursor was on the last row. -/
def lf (t : Terminal) : Terminal :=
  if t.grid.length = t.cursor.2 + 1 then
    { t.new_row with cursor := (t.cursor.1, t.cursor.2 + 1) }
  else
    { t with cursor := (t.cursor.1, t.cursor.2 + 1) }

/-- `Terminal::cr`: `cursor.0 = 0`. -/
def cr (t : Terminal) : Terminal :=
  { t with cursor := (0, t.cursor.2) }

/-- Write `ch` into the cell under the cursor
(`self.grid[self.cursor.1].raw[self.cursor.0] = ...`, the write half of
`current_cell_mut`). -/
def set_current_cell (t : Terminal) (ch : Char) : Terminal :=
  { t with grid := modifyAt t.grid t.cursor.2 (fun ln => ⟨ln.raw.set t.cursor.1 ⟨ch⟩⟩) }

/-- `Terminal::advance_cursor`. -/
def advance_cursor (t : Terminal) : Terminal :=
  if t.cursor.1 = t.column - 1 then t.cr.lf
  else { t with cursor := (t.cursor.1 + 1, t.cursor.2) }

/-- `Terminal::cursor_up(n)`. -/
def cursor_up (t : Terminal) (n : Nat) : Terminal :=
  { t with cursor := (t.cursor.1, t.cursor.2 - n) }

/-- `Terminal::cursor_down(n)`: `n` line feeds. -/
def cursor_down (t : Terminal) (n : Nat) : Terminal :=
  iterateN lf n t

/-- `Terminal::cursor_right(n)`: `cursor.0 = (cursor.0 + n).min(column - 1)`. -/
def cursor_right (t : Terminal) (n : Nat) : Terminal :=
  { t with cursor := (min (t.cursor.1 + n) (t.column - 1), t.cursor.2) }

/-- `Terminal::cursor_left(n)`. -/
def cursor_left (t : Terminal) (n : Nat) : Terminal :=
  { t with cursor := (t.cursor.1 - n, t.cursor.2) }

/-- `Terminal::text(c)`: write the character, then advance. -/
def text (t : Terminal) (c : Char) : Terminal :=
  (t.set_current_cell c).advance_cursor

/-- `Terminal::erase_all`: clear the grid, push one fresh row, home the cursor. -/
def erase_all (t : Terminal) : Terminal :=
  { t with grid := [Line.new t.column], cursor := (0, 0) }

/-- The EraseToEndOfLine arm: blank the cells `cursor.0 ..` of the
cursor's line (`for cell in self.grid[self.cursor.1].raw[self.cursor.0..]`). -/
def erase_to_eol (t : Terminal) : Terminal :=
  { t with
    grid := modifyAt t.grid t.cursor.2 (fun ln =>
      ⟨ln.raw.take t.cursor.1 ++ (ln.raw.drop t.cursor.1).map (fun _ => Cell.new ' ')⟩) }

/-- The `Cursor::Position { col, line }` arm (`col` and `line` zero-based):
append `line - (grid.len() - 1)` fresh rows when the target lies past the
last row, clamp the column, and jump. -/
def cursor_position (t : Terminal) (col line : Nat) : Terminal :=
  { t with
    grid := t.grid ++ List.replicate (line - (t.grid.length - 1)) (Line.new t.column),
    cursor := (min col (t.column - 1), line) }

end Terminal

/-- The control codes of the parser; the first three are handled
explicitly in `perform_action`, the rest fall through to the warning arm. -/
inductive ControlCode
  | backspace
  | lineFeed
  | carriageReturn
  | horizontalTab
  | bell
  deriving DecidableEq, Repr

/-- `EraseInDisplay` variants of the CSI Edit group. -/
inductive EraseInDisplay
  | eraseToEndOfDisplay
  | eraseToStartOfDisplay
  | eraseDisplay
  | eraseScrollback
  deriving DecidableEq, Repr

/-- `EraseInLine` variants of the CSI Edit group. -/
inductive EraseInLine
  | eraseToEndOfLine
  | eraseToStartOfLine
  | eraseLine
  deriving DecidableEq, Repr

/-- The semantic actions emitted by the escape-sequence parser, as matched
by `Terminal::perform_action`.  `csiCursorPosition` carries zero-based
coordinates (`as_zero_based`).  Actions the code does not match
(`Esc`, `OSC`, device control, ...) are collected in `otherAction`. -/
inductive Action
  | print (c : Char)
  | control (code : ControlCode)
  | csiEraseInDisplay (e : EraseInDisplay)
  | csiEraseInLine (e : EraseInLine)
  | csiResetModeShowCursor
  | csiResetDecPrivateShowCursor
  | csiSetDecPrivateShowCursor
  | csiSgr
  | csiCursorPosition (col line : Nat)
  | csiCursorUp (n : Nat)
  | csiCursorDown (n : Nat)
  | csiCursorRight (n : Nat)
  | csiCursorLeft (n : Nat)
  | otherAction
  deriving DecidableEq, Repr

/-- `Terminal::perform_action` (src/src/term/grid.rs:134-201).  The second
component records whether the wildcard arm fired, i.e. whether
`log::warn!("Unimplemented action {:?}", other)` was emitted with the
action's identity.  Arms whose body is empty (show/hide cursor, SGR)
return the terminal unchanged without a warning. -/
def perform_action (t : Terminal) (a : Action) : Terminal × Bool :=
  match a with
  | .print c => (t.text c, false)
  | .control .backspace => (t.bs, false)
  | .control .lineFeed => (t.lf, false)
  | .control .carriageReturn => (t.cr, false)
  | .csiEraseInDisplay .eraseToEndOfDisplay => (t.erase_all, false)
  | .csiEraseInDisplay .eraseDisplay => (t.erase_all, false)
  | .csiEraseInLine .eraseToEndOfLine => (t.erase_to_eol, false)
  | .csiResetModeShowCursor => (t, false)
  | .csiResetDecPrivateShowCursor => (t, false)
  | .csiSetDecPrivateShowCursor => (t, false)
  | .csiSgr => (t, false)
  | .csiCursorPosition col line => (t.cursor_position col line, false)
  | .csiCursorUp n => (t.cursor_up n, false)
  | .csiCursorDown n => (t.cursor_down n, false)
  | .csiCursorRight n => (t.cursor_right n, false)
  | .csiCursorLeft n => (t.cursor_left n, false)
  | _ => (t, true)

/-- Apply a whole sequence of parsed actions. -/
def apply_actions (t : Terminal) (actions : List Action) : Terminal :=
  actions.foldl (fun t a => (perform_action t a).1) t

/-- The grid invariant behind the safety claim: the grid is non-empty,
every line holds exactly `column` cells, and the cursor is strictly
inside the grid. -/
def Inv (t : Terminal) : Prop :=
  t.grid ≠ [] ∧ (∀ l ∈ t.grid, l.raw.length = t.column) ∧
    t.cursor.1 < t.column ∧ t.cursor.2 < t.grid.length

/-! ## Cell-background instances (src/src/render/cell.rs, `set_terminal`) -/

/-- A cell's color attribute (termwiz `ColorAttribute`, abridged to the
shape the renderer tests: the default marker versus anything else). -/
inductive ColorAttribute
  | default
  | paletteIndex (i : Nat)
  | trueColor (r g b : Nat)
  deriving DecidableEq, Repr

/-- A cell of a screen snapshot, with the attributes the renderer reads. -/
structure ScreenCell where
  bg : ColorAttribute
  fg : ColorAttribute
  deriving DecidableEq, Repr

/-- A screen snapshot as `set_terminal` reads it: the physical size and
the line buffer (`screen.lines.as_slices().0`), each line a list of cells. -/
structure Screen where
  physical_cols : Nat
  physical_rows : Nat
  lines : List (List ScreenCell)
  deriving DecidableEq, Repr

/-- A cell-background instance (`CellVertex` in cell.rs): RGB color (the
alpha written by the code is the constant `1.0`) and the position in
pixels. -/
structure CellVertex where
  color : ℚ × ℚ × ℚ
  cell_pos : ℚ × ℚ
  deriving DecidableEq, Repr

/-- The "Make cell instances" block of `CellContext::set_terminal`
(cell.rs:434-458):
`(0..physical_cols).zip(0..physical_rows).filter_map(|(x, y)| { let cell =
lines[y].cells().get(x)?; if bg != Default { Some(vertex) } else { None } })`.
`resolve_bg` abstracts `palette.resolve_bg` (the palette is an external
collaborator). -/
def make_cell_instances (resolve_bg : ColorAttribute → ℚ × ℚ × ℚ) (cell_size : ℚ × ℚ)
    (screen : Screen) : List CellVertex :=
  ((List.range screen.physical_cols).zip (List.range screen.physical_rows)).filterMap
    (fun xy =>
      match (screen.lines.getD xy.2 []).get? xy.1 with
      | none => none
      | some cell =>
        if cell.bg ≠ ColorAttribute.default then
          some { color := resolve_bg cell.bg,
                 cell_pos := ((xy.1 : ℚ) * cell_size.1, (xy.2 : ℚ) * cell_size.2) }
        else none)

/-- Modelled from the spec: the number of cells the claim demands an
instance for — every cell `(x, y)` of the visible range (`x <
physical_cols`, `y < physical_rows`) whose background differs from the
default. -/
def nondefault_bg_count (screen : Screen) : Nat :=
  ((List.range screen.physical_rows).map (fun y =>
    ((screen.lines.getD y []).take screen.physical_cols).countP
      (fun c => decide (c.bg ≠ ColorAttribute.default)))).sum

/-- A 2-column, 1-row screen whose cell `(1, 0)` has a non-default
background; the line buffer is exactly the physical window, so the
visible range is unambiguous. -/
def bugScreen : Screen :=
  { physical_cols := 2
    physical_rows := 1
    lines := [[{ bg := .default, fg := .default },
               { bg := .paletteIndex 1, fg := .default }]] }

/-! ## Text instances (src/src/render/cell.rs:480-517, font_texture.rs:64-75) -/

/-- One shaped glyph as the shaper emits it: identifier, x/y offsets and
the advance. -/
structure Glyph where
  id : Nat
  x : ℚ
  y : ℚ
  advance : ℚ
  deriving DecidableEq, Repr

/-- `GlyphCacheInfo` (font_texture.rs:100-105).  `glyph_position` is
`[image.placement.left, image.placement.top]` — the glyph's bearing as
recorded by `FontTexture::new` (font_texture.rs:69-72). -/
structure GlyphCacheInfo where
  tex_position : ℚ × ℚ
  glyph_position : ℚ × ℚ
  tex_size : ℚ × ℚ
  layer : Int
  deriving DecidableEq, Repr

/-- A text instance (`TextVertex` in cell.rs). -/
structure TextVertex where
  offset : ℚ × ℚ
  tex_offset : ℚ × ℚ
  tex_size : ℚ × ℚ
  color : ℚ × ℚ × ℚ
  layer : Int
  deriving DecidableEq, Repr

/-- The glyph walk of one line in `set_terminal` (cell.rs:484-517), with
the pen position `x` threaded through: for every glyph whose cache entry
exists, push a vertex at
`(x + glyph.x + info.glyph_position[0],
  cell_h * (line_no + 1) - (info.glyph_position[1] + glyph.y + font_descent))`;
always advance `x` by `glyph.advance`.  Each glyph is paired with its
cell's resolved foreground color (`palette.resolve_fg`). -/
def text_line_go (glyph_cache : Nat → Option GlyphCacheInfo) (cell_h font_descent : ℚ)
    (line_no : Nat) (x : ℚ) : List (Glyph × (ℚ × ℚ × ℚ)) → List TextVertex
  | [] => []
  | (g, color) :: rest =>
    match glyph_cache g.id with
    | some info =>
      { offset := (x + g.x + info.glyph_position.1,
          cell_h * ((line_no : ℚ) + 1) - (info.glyph_position.2 + g.y + font_descent)),
        tex_offset := info.tex_position,
        tex_size := info.tex_size,
        color := color,
        layer := info.layer } ::
        text_line_go glyph_cache cell_h font_descent line_no (x + g.advance) rest
    | none => text_line_go glyph_cache cell_h font_descent line_no (x + g.advance) rest

/-- The text instances of one line: the pen starts at `0` at the line's
left edge (`let mut x = 0.0`). -/
def make_text_instances (glyph_cache : Nat → Option GlyphCacheInfo)
    (cell_h font_descent : ℚ) (line_no : Nat)
    (glyphs : List (Glyph × (ℚ × ℚ × ℚ))) : List TextVertex :=
  text_line_go glyph_cache cell_h font_descent line_no 0 glyphs

/-- The pen position before glyph `j`: the sum of the advances of the
glyphs preceding it. -/
def penAt (glyphs : List (Glyph × (ℚ × ℚ × ℚ))) (j : Nat) : ℚ :=
  ((glyphs.take j).map (fun gc => gc.1.advance)).sum

/-- Pair every element of a list with its index, starting at `k`. -/
def idxFrom {α : Type} (k : Nat) : List α → List (Nat × α)
  | [] => []
  | a :: l => (k, a) :: idxFrom (k + 1) l

/-- Modelled from the spec: the claim's description of the emitted text
instances.  For each glyph `j` whose cache entry exists, one instance
whose top-left is
`(pen_x + x_offset + bearing_left,
  (line_index + 1) * cell_height - descent - bearing_top - y_offset)`,
with the bearing taken from the cached placement and `pen_x` the sum of
the advances of the preceding glyphs. -/
def spec_text_instances (glyph_cache : Nat → Option GlyphCacheInfo)
    (cell_h font_descent : ℚ) (line_no : Nat)
    (glyphs : List (Glyph × (ℚ × ℚ × ℚ))) : List TextVertex :=
  (idxFrom 0 glyphs).filterMap (fun jg =>
    (glyph_cache jg.2.1.id).map (fun info =>
      { offset := (penAt glyphs jg.1 + jg.2.1.x + info.glyph_position.1,
          ((line_no : ℚ) + 1) * cell_h - font_descent - info.glyph_position.2 - jg.2.1.y),
        tex_offset := info.tex_position,
        tex_size := info.tex_size,
        color := jg.2.2,
        layer := info.layer }))

end Temu

namespace Temu

/-! ## Theorems: scrolling -/

/-- **C2.** After a `scroll` event the offset is clamped into
`[0, stable_index_of_first_physical_row]`, and `scroll_to_bottom` sets it
to the upper end of that interval. -/
theorem scroll_offset_in_range (scroll_offset offset mx : Int) (h : 0 ≤ mx) :
    (0 ≤ scroll scroll_offset offset mx ∧ scroll scroll_offset offset mx ≤ mx) ∧
      scroll_to_bottom mx = mx ∧ 0 ≤ scroll_to_bottom mx ∧ scroll_to_bottom mx ≤ mx := by
  unfold scroll scroll_to_bottom
  omega

theorem scroll_offset_in_range_witness :
    (0 : Int) ≤ 5 ∧
      ((0 ≤ scroll 3 (-7) 5 ∧ scroll 3 (-7) 5 ≤ 5) ∧
        scroll_to_bottom 5 = 5 ∧ (0 : Int) ≤ scroll_to_bottom 5 ∧ scroll_to_bottom 5 ≤ 5) :=
  ⟨by decide, scroll_offset_in_range 3 (-7) 5 (by decide)⟩

/-- With the offset in range, `n` ScrollUp events compute `max (so - n) 0`. -/
theorem scrollUpN_eq (n : Nat) (so mx : Int) (h0 : 0 ≤ so) (h1 : so ≤ mx) :
    scrollUpN n so mx = max (so - n) 0 := by
  induction n generalizing so with
  | zero => simp [scrollUpN]; omega
  | succ n ih =>
    have hs : scroll so (-1) mx = max (so - 1) 0 := by
      unfold scroll; omega
    rw [scrollUpN, hs, ih (max (so - 1) 0) (by omega) (by omega)]
    push_cast
    omega

/-- With the offset in range, `n` ScrollDown events compute `min (so + n) mx`. -/
theorem scrollDownN_eq (n : Nat) (so mx : Int) (h0 : 0 ≤ so) (h1 : so ≤ mx) :
    scrollDownN n so mx = min (so + n) mx := by
  induction n generalizing so with
  | zero => simp [scrollDownN]; omega
  | succ n ih =>
    have hs : scroll so 1 mx = min (so + 1) mx := by
      unfold scroll; omega
    rw [scrollDownN, hs, ih (min (so + 1) mx) (by omega) (by omega)]
    push_cast
    omega

/-- **C9 (counterexample).** With no new output in between (`mx` stays `1`
throughout), starting from `scroll_offset = 0`, one ScrollUp followed by
one ScrollDown yields `1`, not the prior value `0`: the round trip fails
even though no new output arrived. -/
theorem scroll_round_trip_claim_false :
    scrollDownN 1 (scrollUpN 1 0 1) 1 = 1 ∧ (1 : Int) ≠ 0 := by
  constructor
  · decide
  · decide

/-- **C9 (amended).** With no new output in between (so the bottom stable
index `mx` is unchanged) and the starting offset in range, scrolling up
`n` times and then down `n` times restores `scroll_offset` if and only if
`n ≤ scroll_offset` (no clamping at the top of scrollback) or the offset
was already pinned to the bottom (`scroll_offset = mx`). -/
theorem scroll_round_trip (n : Nat) (so mx : Int) (h0 : 0 ≤ so) (h1 : so ≤ mx) :
    scrollDownN n (scrollUpN n so mx) mx = so ↔ ((n : Int) ≤ so ∨ so = mx) := by
  rw [scrollUpN_eq n so mx h0 h1,
    scrollDownN_eq n (max (so - n) 0) mx (by omega) (by omega)]
  omega

theorem scroll_round_trip_witness :
    (0 : Int) ≤ 2 ∧ (2 : Int) ≤ 9 ∧
      (scrollDownN 2 (scrollUpN 2 2 9) 9 = 2 ↔ ((2 : Nat) : Int) ≤ 2 ∨ (2 : Int) = 9) :=
  ⟨by decide, by decide, scroll_round_trip 2 2 9 (by decide) (by decide)⟩

/-! ## Theorems: resize (src/src/render/viewport.rs:75-79, src/src/render.rs:434-439) -/

/-- **C3 (counterexample).** A Resize event with width `0` (height `600`,
previous size `(800, 600)`) is not ignored: the surface is reconfigured,
with the width clamped to `300`.  The claim says a zero-dimension resize
causes no reconfiguration at all. -/
theorem resize_zero_reconfigures :
    runResize (800, 600) 0 600 = some (300, 600) := by decide

/-- **C3 (amended).** A Resize event equal to the previously recorded size
is ignored; any other Resize (zero dimensions included) triggers a surface
reconfiguration with width `max w 300` and height `max h 200`.  In
particular, when `w ≥ 300` and `h ≥ 200` the reconfiguration uses exactly
`(w, h)`. -/
theorem resize_reconfigures (prev : Nat × Nat) (w h : Nat) :
    (prev = (w, h) → runResize prev w h = none) ∧
      (prev ≠ (w, h) → runResize prev w h = some (max w 300, max h 200)) ∧
      (prev ≠ (w, h) → 300 ≤ w → 200 ≤ h → runResize prev w h = some (w, h)) := by
  refine ⟨fun he => ?_, fun hne => ?_, fun hne hw hh => ?_⟩
  · simp [runResize, he]
  · simp [runResize, hne, Viewport.resize]
  · simp [runResize, hne, Viewport.resize]
    omega

theorem resize_reconfigures_witness :
    runResize (800, 600) 1024 768 = some (1024, 768) :=
  (resize_reconfigures (800, 600) 1024 768).2.2 (by decide) (by decide) (by decide)

/-! ## Theorems: surface-texture acquisition -/

/-- **C4 (counterexample).** When acquisition fails with the recoverable
`Outdated` error, `Viewport::get_current_texture` panics (the `expect`
fires), so the frame is not silently skipped. -/
theorem outdated_acquisition_panics :
    Viewport.get_current_texture (.err .outdated) =
      .error "Failed to acquire next swap chain texture" := rfl

/-- **C4 (amended).** `Viewport::get_current_texture` returns the acquired
texture on success and panics (via `expect`) on every surface-acquisition
error, the recoverable `Outdated` error included: no error leads to a
silently skipped frame. -/
theorem get_current_texture_policy (t : Nat) (e : SurfaceError) :
    Viewport.get_current_texture (.ok t) = .ok t ∧
      Viewport.get_current_texture (.err e) =
        .error "Failed to acquire next swap chain texture" := by
  cases e <;> exact ⟨rfl, rfl⟩

/-! ## Theorems: instance buffer capacity -/

/-- Each wgpu-container `write` leaves the capacity unchanged or doubles it
(several times); it never decreases. -/
theorem containerGrow_ge (cap len : Nat) : cap ≤ containerGrow cap len := by
  rw [containerGrow]
  split
  · exact le_trans (by omega) (containerGrow_ge (cap * 2) len)
  · exact le_rfl
termination_by len - cap
decreasing_by omega

/-- After a wgpu-container `write`, the capacity holds the CPU vector. -/
theorem containerGrow_holds (cap len : Nat) (h : 0 < cap) :
    len ≤ containerGrow cap len := by
  rw [containerGrow]
  split
  · exact containerGrow_holds (cap * 2) len (by omega)
  · next hn =>
    rw [not_and_or] at hn
    omega
termination_by len - cap
decreasing_by omega

/-- Positivity of the capacity is preserved by a wgpu-container `write`. -/
theorem containerGrow_pos (cap len : Nat) (h : 0 < cap) :
    0 < containerGrow cap len :=
  lt_of_lt_of_le h (containerGrow_ge cap len)

/-- The capacity never decreases over any sequence of writes. -/
theorem containerSession_ge (cap : Nat) (lens : List Nat) :
    cap ≤ containerSession cap lens := by
  unfold containerSession
  induction lens generalizing cap with
  | nil => exact le_rfl
  | cons l ls ih =>
    exact le_trans (containerGrow_ge cap l) (ih (containerGrow cap l))

/-- Capacity after a whole session is at least the capacity after any
prefix of the session. -/
theorem containerSession_mono (cap : Nat) (pre suf : List Nat) :
    containerSession cap pre ≤ containerSession cap (pre ++ suf) := by
  unfold containerSession
  rw [List.foldl_append]
  exact containerSession_ge (pre.foldl containerGrow cap) suf

/-- **C6 (counterexample).** The legacy copy of `WgpuVec::write`
(src/src/render/wgpu_vec.rs) doubles the capacity only once per
overflowing write: starting from the initial capacity `1024`, a write
with a CPU vector of length `5000` leaves the tracked capacity at `2048`,
which still does not hold the CPU vector.  The wgpu-container version
doubles until it holds (`8192`). -/
theorem render_write_single_doubling :
    renderGrow 1024 5000 = 2048 ∧ renderGrow 1024 5000 < 5000 ∧
      containerGrow 1024 5000 = 8192 := by
  refine ⟨rfl, by decide, ?_⟩
  rw [containerGrow]; norm_num
  rw [containerGrow]; norm_num
  rw [containerGrow]; norm_num
  rw [containerGrow]; norm_num

/-- **C6 (amended).** The tracked GPU capacity is monotonically
non-decreasing across a session in both `WgpuVec` variants, and in the
wgpu-container variant every write ends with the capacity at least the
CPU vector's length (the capacity is doubled until it holds); the legacy
variant in src/src/render/wgpu_vec.rs doubles only once per overflowing
write, so its capacity may remain below the CPU length. -/
theorem wgpu_vec_capacity (cap : Nat) (hcap : 0 < cap) (pre suf : List Nat) (len : Nat) :
    containerSession cap pre ≤ containerSession cap (pre ++ suf) ∧
      cap ≤ containerGrow cap len ∧ len ≤ containerGrow cap len ∧
      cap ≤ renderGrow cap len := by
  refine ⟨containerSession_mono cap pre suf, containerGrow_ge cap len,
    containerGrow_holds cap len hcap, ?_⟩
  unfold renderGrow
  split <;> omega

theorem wgpu_vec_capacity_witness :
    0 < 256 ∧
      (containerSession 256 [100] ≤ containerSession 256 ([100] ++ [700]) ∧
        256 ≤ containerGrow 256 700 ∧ 700 ≤ containerGrow 256 700 ∧
        256 ≤ renderGrow 256 700) :=
  ⟨by decide, wgpu_vec_capacity 256 (by decide) [100] [700] 700⟩

/-! ## Theorems: the Reader loop -/

/-- **C7.** The Reader loop retries a read failing with `Interrupted`,
terminates cleanly on a `0`-byte read (EOF) and on every other error
kind, and processes the bytes otherwise; no arm panics (the step type has
no panic outcome). -/
theorem reader_loop_policy (len : Nat) (k : ErrorKind) (hk : k ≠ .interrupted) :
    readerStep (.err .interrupted) = .retry ∧
      readerStep (.ok 0) = .terminateCleanly ∧
      readerStep (.err k) = .terminateCleanly ∧
      readerStep (.ok (len + 1)) = .processAndContinue (len + 1) := by
  refine ⟨rfl, rfl, ?_, rfl⟩
  cases k
  · exact absurd rfl hk
  all_goals rfl

theorem reader_loop_policy_witness :
    ErrorKind.brokenPipe ≠ ErrorKind.interrupted ∧
      (readerStep (.err .interrupted) = .retry ∧
        readerStep (.ok 0) = .terminateCleanly ∧
        readerStep (.err .brokenPipe) = .terminateCleanly ∧
        readerStep (.ok (7 + 1)) = .processAndContinue (7 + 1)) :=
  ⟨by decide, reader_loop_policy 7 .brokenPipe (by decide)⟩

/-! ## Theorems: the terminal grid -/

/-- **C8.** Whenever `perform_action` fires its wildcard arm — i.e. logs
the "Unimplemented action" warning — the terminal state (grid contents,
cursor, column count) is completely unchanged; and whether the wildcard
fires depends only on the action, not on the terminal state. -/
theorem unknown_action_unchanged (a : Action) (t t' : Terminal) :
    ((perform_action t a).2 = true → (perform_action t a).1 = t) ∧
      (perform_action t a).2 = (perform_action t' a).2 := by
  cases a with
  | control code => cases code <;> simp [perform_action]
  | csiEraseInDisplay e => cases e <;> simp [perform_action]
  | csiEraseInLine e => cases e <;> simp [perform_action]
  | _ => simp [perform_action]

theorem unknown_action_unchanged_witness :
    (perform_action (Terminal.new 4) Action.otherAction).1 = Terminal.new 4 :=
  (unknown_action_unchanged Action.otherAction (Terminal.new 4) (Terminal.new 2)).1 rfl

theorem modifyAt_length {α : Type} (l : List α) (i : Nat) (f : α → α) :
    (modifyAt l i f).length = l.length := by
  induction l generalizing i with
  | nil => rfl
  | cons a l ih =>
    cases i with
    | zero => rfl
    | succ i => simpa [modifyAt] using ih i

theorem modifyAt_forall {α : Type} {P : α → Prop} (l : List α) (i : Nat) (f : α → α)
    (h : ∀ x ∈ l, P x) (hf : ∀ x, P x → P (f x)) : ∀ x ∈ modifyAt l i f, P x := by
  induction l generalizing i with
  | nil => simp [modifyAt]
  | cons a l ih =>
    cases i with
    | zero =>
      intro x hx
      rcases List.mem_cons.1 hx with h1 | h1
      · exact h1 ▸ hf a (h a (by simp))
      · exact h x (List.mem_cons_of_mem a h1)
    | succ i =>
      intro x hx
      rcases List.mem_cons.1 hx with h1 | h1
      · exact h1 ▸ h a (by simp)
      · exact ih i (fun x hx => h x (List.mem_cons_of_mem a hx)) x h1

theorem inv_new_row {t : Terminal} (h : Inv t) : Inv t.new_row := by
  obtain ⟨hne, hlen, hx, hy⟩ := h
  unfold Terminal.new_row
  refine ⟨by simp, ?_, hx, by simp; omega⟩
  intro l hl
  simp only [List.mem_append, List.mem_singleton] at hl
  rcases hl with h1 | h1
  · exact hlen l h1
  · simp [h1, Line.new]

theorem inv_lf {t : Terminal} (h : Inv t) : Inv t.lf := by
  obtain ⟨hne, hlen, hx, hy⟩ := h
  unfold Terminal.lf Terminal.new_row
  by_cases hc : t.grid.length = t.cursor.2 + 1
  · rw [if_pos hc]
    refine ⟨by simp, ?_, hx, by simp; omega⟩
    intro l hl
    simp only [List.mem_append, List.mem_singleton] at hl
    rcases hl with h1 | h1
    · exact hlen l h1
    · simp [h1, Line.new]
  · rw [if_neg hc]
    exact ⟨hne, hlen, hx, by dsimp only; omega⟩

theorem inv_cr {t : Terminal} (h : Inv t) : Inv t.cr := by
  obtain ⟨hne, hlen, hx, hy⟩ := h
  unfold Terminal.cr
  exact ⟨hne, hlen, by dsimp only; omega, hy⟩

theorem inv_bs {t : Terminal} (h : Inv t) : Inv t.bs := by
  obtain ⟨hne, hlen, hx, hy⟩ := h
  unfold Terminal.bs
  exact ⟨hne, hlen, by dsimp only; omega, hy⟩

theorem inv_cursor_up {t : Terminal} (n : Nat) (h : Inv t) : Inv (t.cursor_up n) := by
  obtain ⟨hne, hlen, hx, hy⟩ := h
  unfold Terminal.cursor_up
  exact ⟨hne, hlen, hx, by dsimp only; omega⟩

theorem inv_cursor_right {t : Terminal} (n : Nat) (h : Inv t) : Inv (t.cursor_right n) := by
  obtain ⟨hne, hlen, hx, hy⟩ := h
  unfold Terminal.cursor_right
  exact ⟨hne, hlen, by dsimp only; omega, hy⟩

theorem inv_cursor_left {t : Terminal} (n : Nat) (h : Inv t) : Inv (t.cursor_left n) := by
  obtain ⟨hne, hlen, hx, hy⟩ := h
  unfold Terminal.cursor_left
  exact ⟨hne, hlen, by dsimp only; omega, hy⟩

theorem inv_set_current_cell {t : Terminal} (c : Char) (h : Inv t) :
    Inv (t.set_current_cell c) := by
  obtain ⟨hne, hlen, hx, hy⟩ := h
  refine ⟨?_, ?_, hx, ?_⟩
  · simp only [Terminal.set_current_cell]
    intro hcon
    apply hne
    have := modifyAt_length t.grid t.cursor.2
      (fun ln => ⟨ln.raw.set t.cursor.1 ⟨c⟩⟩)
    rw [hcon] at this
    simpa using List.length_eq_zero.1 this.symm
  · simp only [Terminal.set_current_cell]
    exact modifyAt_forall _ _ _ hlen (fun x hx => by simpa using hx)
  · simp only [Terminal.set_current_cell]
    rw [modifyAt_length]
    exact hy

theorem inv_advance_cursor {t : Terminal} (h : Inv t) : Inv t.advance_cursor := by
  obtain ⟨hne, hlen, hx, hy⟩ := h
  unfold Terminal.advance_cursor
  by_cases hc : t.cursor.1 = t.column - 1
  · rw [if_pos hc]
    exact inv_lf (inv_cr ⟨hne, hlen, hx, hy⟩)
  · rw [if_neg hc]
    exact ⟨hne, hlen, by dsimp only; omega, hy⟩

theorem inv_text {t : Terminal} (c : Char) (h : Inv t) : Inv (t.text c) :=
  inv_advance_cursor (inv_set_current_cell c h)

theorem inv_cursor_down {t : Terminal} (n : Nat) (h : Inv t) :
    Inv (t.cursor_down n) := by
  unfold Terminal.cursor_down
  induction n generalizing t with
  | zero => exact h
  | succ n ih => exact ih (inv_lf h)

theorem inv_erase_all {t : Terminal} (h : Inv t) : Inv t.erase_all := by
  obtain ⟨hne, hlen, hx, hy⟩ := h
  unfold Terminal.erase_all
  refine ⟨by simp, ?_, by dsimp only; omega, by simp⟩
  intro l hl
  simp only [List.mem_singleton] at hl
  simp [hl, Line.new]

theorem inv_erase_to_eol {t : Terminal} (h : Inv t) : Inv t.erase_to_eol := by
  obtain ⟨hne, hlen, hx, hy⟩ := h
  unfold Terminal.erase_to_eol
  refine ⟨?_, ?_, hx, ?_⟩
  · dsimp only
    intro hcon
    apply hne
    have := modifyAt_length t.grid t.cursor.2
      (fun ln => ⟨ln.raw.take t.cursor.1 ++ (ln.raw.drop t.cursor.1).map (fun _ => Cell.new ' ')⟩)
    rw [hcon] at this
    simpa using List.length_eq_zero.1 this.symm
  · dsimp only
    refine modifyAt_forall _ _ _ hlen ?_
    intro x hlx
    simp only [List.length_append, List.length_take, List.length_map, List.length_drop] at *
    omega
  · dsimp only
    rw [modifyAt_length]
    exact hy

theorem inv_cursor_position {t : Terminal} (col line : Nat) (h : Inv t) :
    Inv (t.cursor_position col line) := by
  obtain ⟨hne, hlen, hx, hy⟩ := h
  have hg : 0 < t.grid.length := List.length_pos.2 hne
  unfold Terminal.cursor_position
  refine ⟨?_, ?_, ?_, ?_⟩
  · dsimp only
    intro hcon
    rcases List.append_eq_nil.1 hcon with ⟨h1, _⟩
    exact hne h1
  · dsimp only
    intro l hl
    rcases List.mem_append.1 hl with h1 | h1
    · exact hlen l h1
    · have := List.eq_of_mem_replicate h1
      simp [this, Line.new]
  · dsimp only
    omega
  · simp only [List.length_append, List.length_replicate]
    omega

/-- Every single action preserves the grid invariant. -/
theorem inv_perform_action {t : Terminal} (a : Action) (h : Inv t) :
    Inv (perform_action t a).1 := by
  obtain ⟨hne, hlen, hx, hy⟩ := h
  cases a with
  | print c => exact inv_text c ⟨hne, hlen, hx, hy⟩
  | control code =>
    cases code with
    | backspace => exact inv_bs ⟨hne, hlen, hx, hy⟩
    | lineFeed => exact inv_lf ⟨hne, hlen, hx, hy⟩
    | carriageReturn => exact inv_cr ⟨hne, hlen, hx, hy⟩
    | horizontalTab => exact ⟨hne, hlen, hx, hy⟩
    | bell => exact ⟨hne, hlen, hx, hy⟩
  | csiEraseInDisplay e =>
    cases e with
    | eraseToEndOfDisplay => exact inv_erase_all ⟨hne, hlen, hx, hy⟩
    | eraseDisplay => exact inv_erase_all ⟨hne, hlen, hx, hy⟩
    | eraseToStartOfDisplay => exact ⟨hne, hlen, hx, hy⟩
    | eraseScrollback => exact ⟨hne, hlen, hx, hy⟩
  | csiEraseInLine e =>
    cases e with
    | eraseToEndOfLine => exact inv_erase_to_eol ⟨hne, hlen, hx, hy⟩
    | eraseToStartOfLine => exact ⟨hne, hlen, hx, hy⟩
    | eraseLine => exact ⟨hne, hlen, hx, hy⟩
  | csiResetModeShowCursor => exact ⟨hne, hlen, hx, hy⟩
  | csiResetDecPrivateShowCursor => exact ⟨hne, hlen, hx, hy⟩
  | csiSetDecPrivateShowCursor => exact ⟨hne, hlen, hx, hy⟩
  | csiSgr => exact ⟨hne, hlen, hx, hy⟩
  | csiCursorPosition col line => exact inv_cursor_position col line ⟨hne, hlen, hx, hy⟩
  | csiCursorUp n => exact inv_cursor_up n ⟨hne, hlen, hx, hy⟩
  | csiCursorDown n => exact inv_cursor_down n ⟨hne, hlen, hx, hy⟩
  | csiCursorRight n => exact inv_cursor_right n ⟨hne, hlen, hx, hy⟩
  | csiCursorLeft n => exact inv_cursor_left n ⟨hne, hlen, hx, hy⟩
  | otherAction => exact ⟨hne, hlen, hx, hy⟩

theorem inv_apply_actions {t : Terminal} (actions : List Action) (h : Inv t) :
    Inv (apply_actions t actions) := by
  unfold apply_actions
  induction actions generalizing t with
  | nil => exact h
  | cons a rest ih => exact ih (inv_perform_action a h)

/-- **C10.** Starting from `Terminal::new(column)` with `column ≥ 1`,
every sequence of `perform_action` calls preserves the grid invariant:
the grid is non-empty, every line holds exactly `column` cells, the
cursor column is `< column` and its row `< grid length`; hence the
indexings of `current_cell_mut` and of the erase-to-end-of-line slice
are always in bounds. -/
theorem grid_safety (column : Nat) (hcol : 0 < column) (actions : List Action) :
    (apply_actions (Terminal.new column) actions).grid ≠ [] ∧
      (∀ l ∈ (apply_actions (Terminal.new column) actions).grid,
        l.raw.length = (apply_actions (Terminal.new column) actions).column) ∧
      (apply_actions (Terminal.new column) actions).cursor.1 <
        (apply_actions (Terminal.new column) actions).column ∧
      (apply_actions (Terminal.new column) actions).cursor.2 <
        (apply_actions (Terminal.new column) actions).grid.length ∧
      (apply_actions (Terminal.new column) actions).cursor.1 <
        ((apply_actions (Terminal.new column) actions).grid.getD
          (apply_actions (Terminal.new column) actions).cursor.2
          (Line.new column)).raw.length := by
  have h0 : Inv (Terminal.new column) := by
    unfold Terminal.new
    refine ⟨by simp, ?_, by dsimp only; omega, by simp⟩
    intro l hl
    simp only [List.mem_singleton] at hl
    simp [hl, Line.new]
  obtain ⟨hne, hlen, hx, hy⟩ := inv_apply_actions actions h0
  refine ⟨hne, hlen, hx, hy, ?_⟩
  set t := apply_actions (Terminal.new column) actions
  have hmem : t.grid.getD t.cursor.2 (Line.new column) ∈ t.grid := by
    rw [List.getD_eq_getElem t.grid (Line.new column) hy]
    exact List.getElem_mem hy
  rw [hlen _ hmem]
  exact hx

/-! ## Theorems: cell-background instances -/

/-- **C1.** The "Make cell instances" pass zips the column range with the
row range instead of walking their product: on a 2-column, 1-row screen
whose cell `(1, 0)` is the only one with a non-default background, the
code pushes no cell-background instance at all, while the claim demands
exactly one. -/
theorem cell_instances_miss_offdiagonal :
    make_cell_instances (fun _ => (1, 0, 0)) (8, 16) bugScreen = [] ∧
      nondefault_bg_count bugScreen = 1 := by
  constructor
  · rfl
  · rfl

/-! ## Theorems: text-instance layout -/

theorem penAt_zero (gs : List (Glyph × (ℚ × ℚ × ℚ))) : penAt gs 0 = 0 := by
  simp [penAt]

theorem penAt_cons_succ (g : Glyph) (c : ℚ × ℚ × ℚ) (rest : List (Glyph × (ℚ × ℚ × ℚ)))
    (j : Nat) : penAt ((g, c) :: rest) (j + 1) = g.advance + penAt rest j := by
  simp [penAt, List.take_succ_cons]

theorem idxFrom_map_succ {α : Type} (l : List α) (k : Nat) :
    idxFrom (k + 1) l = (idxFrom k l).map (fun p => (p.1 + 1, p.2)) := by
  induction l generalizing k with
  | nil => rfl
  | cons a l ih =>
    simp only [idxFrom, List.map_cons]
    exact congrArg _ (ih (k + 1))

/-- The glyph walk with the pen started at an arbitrary `x`: every emitted
instance sits at `x` plus the sum of the advances of the preceding
glyphs, plus the glyph's x offset and cached bearing. -/
theorem text_line_go_spec (glyph_cache : Nat → Option GlyphCacheInfo)
    (ch d : ℚ) (ln : Nat) (gs : List (Glyph × (ℚ × ℚ × ℚ))) (x : ℚ) :
    text_line_go glyph_cache ch d ln x gs =
      (idxFrom 0 gs).filterMap (fun jg =>
        (glyph_cache jg.2.1.id).map (fun info =>
          (⟨(x + penAt gs jg.1 + jg.2.1.x + info.glyph_position.1,
              ((ln : ℚ) + 1) * ch - d - info.glyph_position.2 - jg.2.1.y),
            info.tex_position, info.tex_size, jg.2.2, info.layer⟩ : TextVertex))) := by
  induction gs generalizing x with
  | nil => rfl
  | cons gc rest ih =>
    obtain ⟨g, c⟩ := gc
    rw [show idxFrom 0 ((g, c) :: rest) = (0, (g, c)) :: idxFrom 1 rest from rfl,
      List.filterMap_cons, idxFrom_map_succ rest 0, List.filterMap_map]
    cases hc : glyph_cache g.id with
    | none =>
      simp only [text_line_go, hc, Option.map_none']
      rw [ih (x + g.advance)]
      apply List.filterMap_congr
      rintro ⟨j, g', c'⟩ hp
      cases hcc : glyph_cache g'.id with
      | none => simp [hcc]
      | some info =>
        simp only [Function.comp_apply, hcc, Option.map_some', Option.some.injEq,
          TextVertex.mk.injEq, penAt_cons_succ, Prod.mk.injEq, and_true, true_and]
        ring
    | some info =>
      simp only [text_line_go, hc, Option.map_some']
      rw [ih (x + g.advance)]
      refine congrArg₂ _ ?_ ?_
      · simp only [TextVertex.mk.injEq, penAt_zero, Prod.mk.injEq, and_true, true_and]
        constructor <;> ring
      · apply List.filterMap_congr
        rintro ⟨j, g', c'⟩ hp
        cases hcc : glyph_cache g'.id with
        | none => simp [hcc]
        | some info' =>
          simp only [Function.comp_apply, hcc, Option.map_some', Option.some.injEq,
            TextVertex.mk.injEq, penAt_cons_succ, Prod.mk.injEq, and_true, true_and]
          ring

/-- **C5.** The text instances the code builds for a line are exactly the
ones the claim describes: the pen starts at `0` at the line's left edge
and is advanced by `glyph.advance` after each glyph, and each emitted
instance's top-left is
`(pen_x + x_offset + bearing_left,
  (line_index + 1) * cell_height - descent - bearing_top - y_offset)`,
with the bearing from the glyph's cached placement. -/
theorem text_instance_positions (glyph_cache : Nat → Option GlyphCacheInfo)
    (ch d : ℚ) (ln : Nat) (gs : List (Glyph × (ℚ × ℚ × ℚ))) :
    make_text_instances glyph_cache ch d ln gs =
      spec_text_instances glyph_cache ch d ln gs := by
  unfold make_text_instances spec_text_instances
  rw [text_line_go_spec]
  apply List.filterMap_congr
  rintro ⟨j, g', c'⟩ hp
  cases hcc : glyph_cache g'.id with
  | none => simp [hcc]
  | some info =>
    simp only [hcc, Option.map_some', Option.some.injEq, TextVertex.mk.injEq, Prod.mk.injEq,
      and_true, true_and]
    ring

theorem grid_safety_witness :
    0 < 10 ∧
      ((apply_actions (Terminal.new 10) [Action.print 'a']).grid ≠ [] ∧
        (∀ l ∈ (apply_actions (Terminal.new 10) [Action.print 'a']).grid,
          l.raw.length = (apply_actions (Terminal.new 10) [Action.print 'a']).column) ∧
        (apply_actions (Terminal.new 10) [Action.print 'a']).cursor.1 <
          (apply_actions (Terminal.new 10) [Action.print 'a']).column ∧
        (apply_actions (Terminal.new 10) [Action.print 'a']).cursor.2 <
          (apply_actions (Terminal.new 10) [Action.print 'a']).grid.length ∧
        (apply_actions (Terminal.new 10) [Action.print 'a']).cursor.1 <
          ((apply_actions (Terminal.new 10) [Action.print 'a']).grid.getD
            (apply_actions (Terminal.new 10) [Action.print 'a']).cursor.2
            (Line.new 10)).raw.length) :=
  ⟨by decide, grid_safety 10 (by decide) [Action.print 'a']⟩

end Temu
